import Mathlib

/-
Verification of the application-status tracker and analytics aggregation of
the Career Pilot backend.  The definitions below are a shallow embedding of
the JavaScript controllers:

  * updateApplicationStatus, createApplication, deleteApplication
    (tracker controller): status validation, ownership checks and the
    timestamp side effects computed by the status update.
  * getAnalytics (analytics controller): average response time, average
    salary, monthly trend and top companies.

Machine time is modelled as natural or integer numbers of milliseconds
(Date.now()); where the analytics code does calendar arithmetic a calendar
form of the timestamp is used.  Statuses are plain strings, as in the
source; the five-value enum is the validStatuses list.
-/

namespace CareerPilot

open List

/-- The five-value status enum of the tracker, as listed in the controller. -/
def validStatuses : List String :=
  ["saved", "applied", "interviewing", "offer", "rejected"]

/-- An application document, following the mongoose schema fields used by the
tracker controller.  Timestamps are milliseconds since the epoch. -/
structure Application where
  id : String
  user : String
  job : String
  status : String
  appliedDate : Option Nat
  responseDate : Option Nat
  createdAt : Nat
  updatedAt : Nat
  salary : Option Nat
  notes : Option String
  interviewDate : Option Nat
  interviewTime : Option String
  interviewType : Option String
  interviewLocation : Option String
deriving DecidableEq, Repr

/-- The update object built by updateApplicationStatus: it only ever carries
status, updatedAt and (conditionally) appliedDate and responseDate. -/
structure UpdateData where
  status : String
  updatedAt : Nat
  appliedDate : Option Nat
  responseDate : Option Nat
deriving DecidableEq, Repr

/-- Lines 607 to 618 of the tracker controller: build the update object for a
status change at time now.  appliedDate is stamped when the requested status
is applied and the current status is not applied; responseDate is stamped
when the requested status is offer or rejected and the current status is
neither. -/
def mkUpdateData (application : Application) (status : String) (now : Nat) : UpdateData :=
  { status := status
    updatedAt := now
    appliedDate :=
      if status = "applied" ∧ application.status ≠ "applied" then some now else none
    responseDate :=
      if (status = "offer" ∨ status = "rejected") ∧
          application.status ≠ "offer" ∧ application.status ≠ "rejected" then
        some now
      else none }

/-- Merge semantics of findByIdAndUpdate: a field present in the update object
replaces the stored field, an absent field is left unchanged. -/
def applyUpdate (application : Application) (u : UpdateData) : Application :=
  { application with
    status := u.status
    updatedAt := u.updatedAt
    appliedDate :=
      match u.appliedDate with
      | some d => some d
      | none => application.appliedDate
    responseDate :=
      match u.responseDate with
      | some d => some d
      | none => application.responseDate }

/-- One status change: build the update object and merge it into the record. -/
def applyTransition (application : Application) (status : String) (now : Nat) : Application :=
  applyUpdate application (mkUpdateData application status now)

/-- A sequence of status changes, each given as requested status and time. -/
def runTransitions (application : Application) : List (String × Nat) → Application
  | [] => application
  | (s, t) :: rest => runTransitions (applyTransition application s t) rest

/-- Times of the transitions in a sequence that enter the applied status from
a non-applied status, given the status current before the sequence. -/
def appliedEntryTimes (current : String) : List (String × Nat) → List Nat
  | [] => []
  | (s, t) :: rest =>
      (if s = "applied" ∧ current ≠ "applied" then [t] else []) ++ appliedEntryTimes s rest

/-- Times of the transitions in a sequence that enter offer or rejected from a
status that is neither, given the status current before the sequence. -/
def responseEntryTimes (current : String) : List (String × Nat) → List Nat
  | [] => []
  | (s, t) :: rest =>
      (if (s = "offer" ∨ s = "rejected") ∧ current ≠ "offer" ∧ current ≠ "rejected"
        then [t] else []) ++ responseEntryTimes s rest

/-- A freshly created application record in status saved, as produced by the
create endpoint with the default status. -/
def freshApp : Application :=
  { id := "a1", user := "u1", job := "j1", status := "saved"
    appliedDate := none, responseDate := none, createdAt := 0, updatedAt := 0
    salary := none, notes := none, interviewDate := none, interviewTime := none
    interviewType := none, interviewLocation := none }

/-- A record that already carries an appliedDate, used as a concrete input. -/
def appliedApp : Application :=
  { freshApp with status := "applied", appliedDate := some 1 }

/-- A record that already carries a responseDate, used as a concrete input. -/
def offeredApp : Application :=
  { freshApp with status := "offer", appliedDate := some 1, responseDate := some 2 }

/-- The error payload produced by the controllers: a human-readable message
and an HTTP status code. -/
structure ErrorResponse where
  message : String
  statusCode : Nat
deriving DecidableEq, Repr

/-- Outcome of the update endpoint: the store after the call and either the
updated record or an error. -/
structure UpdateResult where
  store : List Application
  response : Except ErrorResponse Application

/-- Outcome of the delete endpoint. -/
structure DeleteResult where
  store : List Application
  response : Except ErrorResponse Unit

/-- The PUT tracker endpoint: validate the requested status against the enum,
look the record up by id, check ownership, then apply the transition and
persist the merged record.  The store models the application collection, with
findById as the first list entry bearing the id. -/
def updateApplicationStatus (store : List Application) (userId recordId status : String)
    (now : Nat) : UpdateResult :=
  if status ∈ validStatuses then
    match store.find? (fun a => a.id == recordId) with
    | none =>
        { store := store
          response := Except.error { message := "Application not found", statusCode := 404 } }
    | some application =>
        if application.user ≠ userId then
          { store := store
            response := Except.error
              { message := "Not authorized to update this application", statusCode := 403 } }
        else
          let updated := applyTransition application status now
          { store := store.map (fun b => if b.id = recordId then updated else b)
            response := Except.ok updated }
  else
    { store := store
      response := Except.error { message := "Invalid status", statusCode := 400 } }

/-- The DELETE tracker endpoint: look the record up by id, check ownership,
then remove it from the store. -/
def deleteApplication (store : List Application) (userId recordId : String) : DeleteResult :=
  match store.find? (fun a => a.id == recordId) with
  | none =>
      { store := store
        response := Except.error { message := "Application not found", statusCode := 404 } }
  | some application =>
      if application.user ≠ userId then
        { store := store
          response := Except.error
            { message := "Not authorized to delete this application", statusCode := 403 } }
      else
        { store := store.filter (fun a => !(a.id == recordId))
          response := Except.ok () }

/-- A job posting document; only the fields the tracker and analytics read. -/
structure Job where
  id : String
  company : String
  salary : Option String
  postedBy : String
deriving DecidableEq, Repr

/-- Outcome of the create endpoint. -/
structure CreateResult where
  store : List Application
  response : Except ErrorResponse Application

/-- The POST tracker endpoint: require a job id, require the job to exist,
reject a duplicate application for the same user and job pair, then create a
record whose status defaults to saved.  The final enum test models the
mongoose schema validation run by Application.create; the error middleware
turns a schema validation failure into a 400 response. -/
def createApplication (apps : List Application) (jobs : List Job) (userId : String)
    (jobId : Option String) (status : Option String) (newId : String) (now : Nat) :
    CreateResult :=
  match jobId with
  | none => ⟨apps, Except.error { message := "Please provide a job ID", statusCode := 400 }⟩
  | some jid =>
    match jobs.find? (fun j => j.id == jid) with
    | none => ⟨apps, Except.error { message := "Job not found", statusCode := 404 }⟩
    | some _ =>
      match apps.find? (fun a => a.user == userId && a.job == jid) with
      | some _ =>
          ⟨apps, Except.error
            { message := "Application for this job already exists", statusCode := 400 }⟩
      | none =>
          let s := status.getD "saved"
          if s ∈ validStatuses then
            let application : Application :=
              { id := newId, user := userId, job := jid, status := s
                appliedDate := none, responseDate := none, createdAt := now, updatedAt := now
                salary := none, notes := none, interviewDate := none, interviewTime := none
                interviewType := none, interviewLocation := none }
            ⟨apps ++ [application], Except.ok application⟩
          else
            ⟨apps, Except.error
              { message := "Application validation failed", statusCode := 400 }⟩

/-- A job posting used as a concrete input. -/
def demoJob : Job :=
  { id := "j1", company := "Acme", salary := none, postedBy := "u9" }

/-- A calendar instant as the analytics code handles it: month is the
absolute month index (twelve times the year plus the zero-based month), day
is the one-based day of month, ms the milliseconds past local midnight.  A
real date always has day at least one.  Comparison of JavaScript Date values
is by milliseconds since the epoch, which on this form is the lexicographic
order below. -/
structure JsDate where
  month : Int
  day : Nat
  ms : Nat
deriving DecidableEq, Repr

/-- Lexicographic order on calendar instants, matching Date comparison. -/
def JsDate.le (t u : JsDate) : Prop :=
  t.month < u.month ∨ (t.month = u.month ∧
    (t.day < u.day ∨ (t.day = u.day ∧ t.ms ≤ u.ms)))

instance (t u : JsDate) : Decidable (JsDate.le t u) := by
  unfold JsDate.le
  infer_instance

/-- Leap year test of the Gregorian calendar. -/
def isLeapYear (y : Int) : Bool :=
  y % 4 == 0 && (y % 100 != 0 || y % 400 == 0)

/-- Number of days of the month with absolute index m.  This is the day of
month that new Date(year, monthOfYear + 1, 0) normalizes to. -/
def daysInMonth (m : Int) : Nat :=
  let y := m.ediv 12
  let mo := (m.emod 12).toNat
  if mo = 1 then (if isLeapYear y then 29 else 28)
  else if mo = 3 ∨ mo = 5 ∨ mo = 8 ∨ mo = 10 then 30
  else 31

/-- new Date(year, month - i, 1): midnight starting the first day of the
month i months before now. -/
def monthStart (now : JsDate) (i : Nat) : JsDate :=
  { month := now.month - i, day := 1, ms := 0 }

/-- new Date(year, month - i + 1, 0): midnight starting the last day of the
month i months before now. -/
def monthEnd (now : JsDate) (i : Nat) : JsDate :=
  { month := now.month - i, day := daysInMonth (now.month - i), ms := 0 }

/-- The joined job fields the analytics code reads from a populated record. -/
structure JobInfo where
  company : String
  salary : Option String
deriving DecidableEq, Repr

/-- An application record as the analytics code sees it, with the job
populated.  appliedDate and responseDate are milliseconds since the epoch,
since the code subtracts them; createdAt and updatedAt are kept in calendar
form, since the code compares them against calendar month boundaries. -/
structure AppRecord where
  status : String
  createdAt : JsDate
  updatedAt : JsDate
  appliedDate : Option Int
  responseDate : Option Int
  job : Option JobInfo
deriving DecidableEq, Repr

/-- The comparison window of the monthly trend loop for the month i months
before now: from monthStart to monthEnd inclusive. -/
def inMonthWindow (now : JsDate) (i : Nat) (t : JsDate) : Prop :=
  JsDate.le (monthStart now i) t ∧ JsDate.le t (monthEnd now i)

instance (now : JsDate) (i : Nat) (t : JsDate) : Decidable (inMonthWindow now i t) := by
  unfold inMonthWindow
  infer_instance

/-- One row of the monthly trend.  The code renders the month as a short
locale name; the absolute month index is kept here instead. -/
structure MonthEntry where
  month : Int
  applications : Nat
  interviews : Nat
  offers : Nat
deriving DecidableEq, Repr

/-- The loop body of the monthly trend: records created in the window, and
records currently interviewing, respectively offer, updated in the window. -/
def monthEntry (apps : List AppRecord) (now : JsDate) (i : Nat) : MonthEntry :=
  { month := now.month - i
    applications := (apps.filter (fun a => decide (inMonthWindow now i a.createdAt))).length
    interviews := (apps.filter (fun a =>
        a.status == "interviewing" && decide (inMonthWindow now i a.updatedAt))).length
    offers := (apps.filter (fun a =>
        a.status == "offer" && decide (inMonthWindow now i a.updatedAt))).length }

/-- The loop for i from n down to 0, pushing one entry per iteration. -/
def monthlyDataFrom (apps : List AppRecord) (now : JsDate) : Nat → List MonthEntry
  | 0 => [monthEntry apps now 0]
  | Nat.succ n => monthEntry apps now (Nat.succ n) :: monthlyDataFrom apps now n

/-- The monthly trend: the loop runs i from 5 down to 0, oldest month first. -/
def monthlyData (apps : List AppRecord) (now : JsDate) : List MonthEntry :=
  monthlyDataFrom apps now 5

/-- Reading of the claim: a timestamp falls in the calendar month m when its
month index is m. -/
def monthlyDataClaim (apps : List AppRecord) (now : JsDate) : List MonthEntry :=
  (List.range 6).map (fun k =>
    { month := now.month - (5 - k : Nat)
      applications := apps.countP (fun a => a.createdAt.month == now.month - (5 - k : Nat))
      interviews := apps.countP (fun a =>
          a.status == "interviewing" && a.updatedAt.month == now.month - (5 - k : Nat))
      offers := apps.countP (fun a =>
          a.status == "offer" && a.updatedAt.month == now.month - (5 - k : Nat)) })

/-- Amended bucket: the timestamp lies in calendar month m, no earlier than
midnight starting day one and no later than midnight starting the last day
of the month, so the remainder of the last day is excluded.  For a real date
the day is at least one. -/
def inMonthUpToLastMidnight (m : Int) (t : JsDate) : Prop :=
  t.month = m ∧ 1 ≤ t.day ∧
    (t.day < daysInMonth m ∨ (t.day = daysInMonth m ∧ t.ms = 0))

instance (m : Int) (t : JsDate) : Decidable (inMonthUpToLastMidnight m t) := by
  unfold inMonthUpToLastMidnight
  infer_instance

/-- The six trailing month indexes, oldest first. -/
def trailingMonths (now : JsDate) : List Int :=
  (List.range 6).map (fun k => now.month - (5 - k : Nat))

/-- A record created one millisecond past midnight on the last day of the
month with index 599; the code never counts it in any month bucket. -/
def lastDayRecord : AppRecord :=
  { status := "saved"
    createdAt := { month := 599, day := 31, ms := 1 }
    updatedAt := { month := 599, day := 31, ms := 1 }
    appliedDate := none, responseDate := none, job := none }

/-- The current instant used in the monthly trend counterexample. -/
def analyticsNow : JsDate := { month := 600, day := 15, ms := 0 }

/-- Milliseconds per day, the divisor of the response time computation. -/
def msPerDay : Int := 1000 * 60 * 60 * 24

/-- Records with both a responseDate and an appliedDate, the only ones the
average response time aggregates over. -/
def respondedApplications (apps : List AppRecord) : List AppRecord :=
  apps.filter (fun a => a.responseDate.isSome && a.appliedDate.isSome)

/-- Response delay of one record in days. -/
def responseTimeDays (a : AppRecord) : Rat :=
  ((a.responseDate.getD 0 - a.appliedDate.getD 0 : Int) : Rat) / (msPerDay : Rat)

/-- Mean response delay in days over the records with both dates, zero when
no record qualifies.  The endpoint then renders this number with one decimal
digit into the response string; the exact mean is modelled. -/
def averageResponseTime (apps : List AppRecord) : Rat :=
  if 0 < (respondedApplications apps).length then
    (respondedApplications apps).foldl (fun total a => total + responseTimeDays a) 0 /
      ((respondedApplications apps).length : Rat)
  else 0

/-- A record with an applied and a response date four days apart. -/
def respondedApp : AppRecord :=
  { status := "offer", createdAt := { month := 599, day := 2, ms := 0 }
    updatedAt := { month := 599, day := 6, ms := 0 }
    appliedDate := some 0, responseDate := some (4 * 86400000), job := none }

/-- A record with a responseDate but no appliedDate. -/
def noAppliedDateApp : AppRecord :=
  { status := "rejected", createdAt := { month := 599, day := 2, ms := 0 }
    updatedAt := { month := 599, day := 6, ms := 0 }
    appliedDate := none, responseDate := some 5, job := none }

/-- Maximal digit runs of a character list, left to right; the accumulator
holds the current run reversed.  This is what the salary string matches
against the global digit-run pattern, so a thousands separator splits a
number into several runs. -/
def digitRunsAux : List Char → List Char → List (List Char)
  | [], acc => if acc.isEmpty then [] else [acc.reverse]
  | c :: rest, acc =>
    if c.isDigit then digitRunsAux rest (c :: acc)
    else if acc.isEmpty then digitRunsAux rest []
    else acc.reverse :: digitRunsAux rest []

/-- The numbers parseInt reads from the digit runs of a string. -/
def digitRuns (s : String) : List Nat :=
  (digitRunsAux s.data []).map (fun ds => ds.foldl (fun n c => 10 * n + (c.toNat - 48)) 0)

/-- Rounding to the nearest integer with half rounded up, as Math.round. -/
def jsRound (q : Rat) : Int := ⌊q + 1 / 2⌋

/-- Value a salary string contributes: the mean of the first two numbers
when at least two digit runs are found, the single number when exactly one
is found, zero otherwise. -/
def salaryNumber (s : String) : Rat :=
  match digitRuns s with
  | n0 :: n1 :: _ => ((n0 : Rat) + (n1 : Rat)) / 2
  | [n0] => (n0 : Rat)
  | [] => 0

/-- The jobs whose salary string contains a dollar sign. -/
def jobsWithSalary (jobs : List Job) : List Job :=
  jobs.filter (fun j =>
    match j.salary with
    | some s => s.data.contains '$'
    | none => false)

/-- The positive values parsed from the kept salary strings. -/
def salaryNumbers (jobs : List Job) : List Rat :=
  ((jobsWithSalary jobs).map (fun j => salaryNumber (j.salary.getD ""))).filter
    (fun v => decide (0 < v))

/-- Average salary metric: keep the jobs whose salary string contains a
dollar sign, drop parses that yield no positive value, and round the mean of
the rest; zero stands for the not available report. -/
def averageSalary (jobs : List Job) : Int :=
  if 0 < (jobsWithSalary jobs).length then
    if 0 < (salaryNumbers jobs).length then
      jsRound ((salaryNumbers jobs).foldl (fun total n => total + n) 0 /
        ((salaryNumbers jobs).length : Rat))
    else 0
  else 0

/-- Job with the range salary string of the specification scenario. -/
def salaryJobOne : Job :=
  { id := "s1", company := "Acme", salary := some "$100,000 - $120,000", postedBy := "u1" }

/-- Job with the single salary string of the specification scenario. -/
def salaryJobTwo : Job :=
  { id := "s2", company := "Beta", salary := some "$90,000", postedBy := "u1" }

/-- The company of a populated record, when a job is joined. -/
def companyName (a : AppRecord) : Option String := a.job.map (fun j => j.company)

/-- Per-company counters accumulated by the grouping pass. -/
structure CompanyStat where
  name : String
  applications : Nat
  interviews : Nat
  offers : Nat
deriving DecidableEq, Repr

/-- Count one record into a company counter: one application, plus one
interview or offer depending on the current status. -/
def bumpStat (c : CompanyStat) (status : String) : CompanyStat :=
  { c with
    applications := c.applications + 1
    interviews := c.interviews + (if status = "interviewing" then 1 else 0)
    offers := c.offers + (if status = "offer" then 1 else 0) }

/-- Count one record under its company, appending a fresh counter when the
company is seen for the first time; the list keeps first-seen order, as
string keys of a plain object do. -/
def addApp (stats : List CompanyStat) (company status : String) : List CompanyStat :=
  match stats with
  | [] => [bumpStat { name := company, applications := 0, interviews := 0, offers := 0 } status]
  | c :: rest =>
      if c.name = company then bumpStat c status :: rest
      else c :: addApp rest company status

/-- One step of the grouping pass: records without a joined job or company
are skipped. -/
def statsStep (stats : List CompanyStat) (a : AppRecord) : List CompanyStat :=
  match a.job with
  | none => stats
  | some j => addApp stats j.company a.status

/-- The grouping pass over the records, in list order. -/
def companyStats (apps : List AppRecord) : List CompanyStat :=
  apps.foldl statsStep []

/-- One output row of the top companies table. -/
structure CompanyEntry where
  name : String
  applications : Nat
  interviews : Nat
  offers : Nat
  successRate : Int
deriving DecidableEq, Repr

/-- Shape a counter into an output row with its success rate. -/
def toEntry (c : CompanyStat) : CompanyEntry :=
  { name := c.name, applications := c.applications, interviews := c.interviews
    offers := c.offers
    successRate :=
      if 0 < c.applications then jsRound ((c.offers : Rat) / (c.applications : Rat) * 100)
      else 0 }

/-- The comparator of the sort: a before b when b has at most as many
applications. -/
def entryGE (a b : CompanyEntry) : Bool := b.applications ≤ a.applications

/-- The stable descending sort by application count; the modern Array sort
is stable, and a stable sort is determined by the comparator, so merge sort
models it exactly. -/
def sortByApplications (l : List CompanyEntry) : List CompanyEntry :=
  l.mergeSort entryGE

/-- The top companies table: group, shape, sort descending by application
count, keep the first five rows. -/
def topCompanies (apps : List AppRecord) : List CompanyEntry :=
  (sortByApplications ((companyStats apps).map toEntry)).take 5

/-- Applications of a company by direct count over the records. -/
def appCountFor (apps : List AppRecord) (name : String) : Nat :=
  apps.countP (fun a => companyName a == some name)

/-- Records of a company currently in a given status, by direct count. -/
def statusCountFor (apps : List AppRecord) (name status : String) : Nat :=
  apps.countP (fun a => companyName a == some name && a.status == status)

/-- Application count a name already holds in an accumulator. -/
def baseApplications (stats : List CompanyStat) (name : String) : Nat :=
  (((stats.find? (fun c => c.name == name))).map (fun c => c.applications)).getD 0

/-- Interview count a name already holds in an accumulator. -/
def baseInterviews (stats : List CompanyStat) (name : String) : Nat :=
  (((stats.find? (fun c => c.name == name))).map (fun c => c.interviews)).getD 0

/-- Offer count a name already holds in an accumulator. -/
def baseOffers (stats : List CompanyStat) (name : String) : Nat :=
  (((stats.find? (fun c => c.name == name))).map (fun c => c.offers)).getD 0

/-- A populated record pointing at a company, used as a concrete input. -/
def recordFor (company status : String) : AppRecord :=
  { status := status, createdAt := { month := 599, day := 2, ms := 0 }
    updatedAt := { month := 599, day := 6, ms := 0 }
    appliedDate := none, responseDate := none
    job := some { company := company, salary := none } }

/-- The top companies scenario: three applications to Acme, one of them an
offer, and two to Globex. -/
def demoApps : List AppRecord :=
  [recordFor "Acme" "applied", recordFor "Globex" "applied", recordFor "Acme" "offer",
    recordFor "Globex" "applied", recordFor "Acme" "saved"]

/-- The Acme row of the scenario table. -/
def acmeEntry : CompanyEntry :=
  { name := "Acme", applications := 3, interviews := 0, offers := 1, successRate := 33 }

/-- The Globex row of the scenario table. -/
def globexEntry : CompanyEntry :=
  { name := "Globex", applications := 2, interviews := 0, offers := 0, successRate := 0 }

end CareerPilot

namespace CareerPilot

open List

theorem status_applyTransition (a : Application) (s : String) (t : Nat) :
    (applyTransition a s t).status = s := rfl

theorem appliedDate_applyTransition (a : Application) (s : String) (t : Nat) :
    (applyTransition a s t).appliedDate =
      if s = "applied" ∧ a.status ≠ "applied" then some t else a.appliedDate := by
  simp only [applyTransition, mkUpdateData, applyUpdate]
  by_cases h : s = "applied" ∧ a.status ≠ "applied" <;> simp [h]

theorem responseDate_applyTransition (a : Application) (s : String) (t : Nat) :
    (applyTransition a s t).responseDate =
      if (s = "offer" ∨ s = "rejected") ∧ a.status ≠ "offer" ∧ a.status ≠ "rejected"
        then some t else a.responseDate := by
  simp only [applyTransition, mkUpdateData, applyUpdate]
  by_cases h : (s = "offer" ∨ s = "rejected") ∧ a.status ≠ "offer" ∧ a.status ≠ "rejected" <;>
    simp [h]

/-- C1 counterexample: on the sequence applied at 1, saved at 2, applied at 3,
the code overwrites appliedDate with 3 on the re-entry, so the first entry
time 1 is not preserved. -/
theorem appliedDate_reentry_counterexample :
    (runTransitions freshApp [("applied", 1), ("saved", 2), ("applied", 3)]).appliedDate
        = some 3 ∧
    (runTransitions freshApp [("applied", 1), ("saved", 2), ("applied", 3)]).appliedDate
        ≠ some 1 := by
  constructor
  · rfl
  · decide

/-- C2 counterexample: on the sequence offer at 1, interviewing at 2, rejected
at 3, the code overwrites responseDate with 3 on the re-entry into the
terminal statuses, so the first entry time 1 is not preserved. -/
theorem responseDate_reentry_counterexample :
    (runTransitions freshApp [("offer", 1), ("interviewing", 2), ("rejected", 3)]).responseDate
        = some 3 ∧
    (runTransitions freshApp [("offer", 1), ("interviewing", 2), ("rejected", 3)]).responseDate
        ≠ some 1 := by
  constructor
  · rfl
  · decide

/-- C1 amended: after any sequence of status changes, appliedDate equals the
time of the last transition that entered applied from a non-applied status,
or keeps its prior value when the sequence has no such transition; so the
first entry into applied sets it, every later re-entry from outside
overwrites it, and it is never cleared. -/
theorem appliedDate_tracks_last_entry (a : Application) (steps : List (String × Nat)) :
    (runTransitions a steps).appliedDate =
      ((appliedEntryTimes a.status steps).getLast?).or a.appliedDate ∧
    (a.appliedDate.isSome → ((runTransitions a steps).appliedDate).isSome) := by
  have main : ∀ (steps : List (String × Nat)) (a : Application),
      (runTransitions a steps).appliedDate =
        ((appliedEntryTimes a.status steps).getLast?).or a.appliedDate := by
    intro steps
    induction steps with
    | nil => intro a; simp [runTransitions, appliedEntryTimes]
    | cons p rest ih =>
      intro a
      obtain ⟨s, t⟩ := p
      have h1 := ih (applyTransition a s t)
      rw [runTransitions, h1, status_applyTransition, appliedDate_applyTransition,
        appliedEntryTimes]
      cases h : (appliedEntryTimes s rest).getLast? with
      | some x =>
        have hne : appliedEntryTimes s rest ≠ [] := by
          intro hnil; rw [hnil] at h; simp at h
        rw [List.getLast?_append_of_ne_nil _ hne, h]
        simp
      | none =>
        have hnil : appliedEntryTimes s rest = [] := by
          cases hc : appliedEntryTimes s rest with
          | nil => rfl
          | cons y ys => rw [hc] at h; simp [List.getLast?_concat] at h
        rw [hnil]
        simp only [List.append_nil, Option.none_or]
        split <;> simp
  refine ⟨main steps a, ?_⟩
  intro hsome
  rw [main steps a]
  cases hl : (appliedEntryTimes a.status steps).getLast? with
  | some x => simp
  | none => simpa using hsome

/-- C1 amended witness: a record with appliedDate set keeps it set after a
further transition out of applied. -/
theorem appliedDate_tracks_last_entry_witness :
    appliedApp.appliedDate.isSome = true ∧
    ((runTransitions appliedApp [("saved", 2)]).appliedDate).isSome = true := by
  refine ⟨by decide, ?_⟩
  exact (appliedDate_tracks_last_entry appliedApp [("saved", 2)]).2 (by decide)

/-- C2 amended: after any sequence of status changes, responseDate equals the
time of the last transition that entered offer or rejected from a status
outside that pair, or keeps its prior value when the sequence has no such
transition; so the first entry sets it, moves between offer and rejected
never overwrite it, a re-entry after leaving the pair overwrites it, and it
is never cleared. -/
theorem responseDate_tracks_last_entry (a : Application) (steps : List (String × Nat)) :
    (runTransitions a steps).responseDate =
      ((responseEntryTimes a.status steps).getLast?).or a.responseDate ∧
    (a.responseDate.isSome → ((runTransitions a steps).responseDate).isSome) := by
  have main : ∀ (steps : List (String × Nat)) (a : Application),
      (runTransitions a steps).responseDate =
        ((responseEntryTimes a.status steps).getLast?).or a.responseDate := by
    intro steps
    induction steps with
    | nil => intro a; simp [runTransitions, responseEntryTimes]
    | cons p rest ih =>
      intro a
      obtain ⟨s, t⟩ := p
      have h1 := ih (applyTransition a s t)
      rw [runTransitions, h1, status_applyTransition, responseDate_applyTransition,
        responseEntryTimes]
      cases h : (responseEntryTimes s rest).getLast? with
      | some x =>
        have hne : responseEntryTimes s rest ≠ [] := by
          intro hnil; rw [hnil] at h; simp at h
        rw [List.getLast?_append_of_ne_nil _ hne, h]
        simp
      | none =>
        have hnil : responseEntryTimes s rest = [] := by
          cases hc : responseEntryTimes s rest with
          | nil => rfl
          | cons y ys => rw [hc] at h; simp [List.getLast?_concat] at h
        rw [hnil]
        simp only [List.append_nil, Option.none_or]
        split <;> simp
  refine ⟨main steps a, ?_⟩
  intro hsome
  rw [main steps a]
  cases hl : (responseEntryTimes a.status steps).getLast? with
  | some x => simp
  | none => simpa using hsome

/-- C2 amended witness: a record with responseDate set keeps it set after a
move between the two terminal statuses. -/
theorem responseDate_tracks_last_entry_witness :
    offeredApp.responseDate.isSome = true ∧
    ((runTransitions offeredApp [("rejected", 9)]).responseDate).isSome = true := by
  refine ⟨by decide, ?_⟩
  exact (responseDate_tracks_last_entry offeredApp [("rejected", 9)]).2 (by decide)

/-- C9: a status change always stamps updatedAt with now, even when the
requested status equals the current one, and leaves every field other than
status, updatedAt, appliedDate and responseDate unchanged (the update object
carries at most those four fields). -/
theorem applyTransition_frame (a : Application) (status : String) (now : Nat) :
    (applyTransition a status now).updatedAt = now ∧
    (applyTransition a status now).id = a.id ∧
    (applyTransition a status now).user = a.user ∧
    (applyTransition a status now).job = a.job ∧
    (applyTransition a status now).createdAt = a.createdAt ∧
    (applyTransition a status now).salary = a.salary ∧
    (applyTransition a status now).notes = a.notes ∧
    (applyTransition a status now).interviewDate = a.interviewDate ∧
    (applyTransition a status now).interviewTime = a.interviewTime ∧
    (applyTransition a status now).interviewType = a.interviewType ∧
    (applyTransition a status now).interviewLocation = a.interviewLocation :=
  ⟨rfl, rfl, rfl, rfl, rfl, rfl, rfl, rfl, rfl, rfl, rfl⟩

/-- C7: the update endpoint answers 400 on a status outside the enum; both the
update and the delete endpoints answer 404 when no record bears the id and
403 when the record is owned by another user, and the two errors differ. -/
theorem updateStatus_delete_error_paths (store : List Application)
    (userId recordId status : String) (now : Nat) :
    (status ∉ validStatuses →
      (updateApplicationStatus store userId recordId status now).response =
        Except.error { message := "Invalid status", statusCode := 400 }) ∧
    (status ∈ validStatuses → (∀ a ∈ store, a.id ≠ recordId) →
      (updateApplicationStatus store userId recordId status now).response =
        Except.error { message := "Application not found", statusCode := 404 }) ∧
    ((∀ a ∈ store, a.id ≠ recordId) →
      (deleteApplication store userId recordId).response =
        Except.error { message := "Application not found", statusCode := 404 }) ∧
    (∀ a, store.find? (fun b => b.id == recordId) = some a → a.user ≠ userId →
      status ∈ validStatuses →
      (updateApplicationStatus store userId recordId status now).response =
        Except.error
          { message := "Not authorized to update this application", statusCode := 403 }) ∧
    (∀ a, store.find? (fun b => b.id == recordId) = some a → a.user ≠ userId →
      (deleteApplication store userId recordId).response =
        Except.error
          { message := "Not authorized to delete this application", statusCode := 403 }) ∧
    ({ message := "Not authorized to update this application", statusCode := 403 } :
        ErrorResponse) ≠ { message := "Application not found", statusCode := 404 } := by
  refine ⟨?_, ?_, ?_, ?_, ?_, by decide⟩
  · intro h
    simp [updateApplicationStatus, h]
  · intro hv hnone
    have hfind : store.find? (fun a => a.id == recordId) = none := by
      rw [List.find?_eq_none]
      intro a ha
      simpa using hnone a ha
    simp [updateApplicationStatus, hv, hfind]
  · intro hnone
    have hfind : store.find? (fun a => a.id == recordId) = none := by
      rw [List.find?_eq_none]
      intro a ha
      simpa using hnone a ha
    simp [deleteApplication, hfind]
  · intro a hfind hau hv
    simp [updateApplicationStatus, hv, hfind, hau]
  · intro a hfind hau
    simp [deleteApplication, hfind, hau]

/-- C7 witness: in a one-record store, an unknown id answers 404 and a
non-owning caller answers 403 on delete. -/
theorem updateStatus_delete_error_paths_witness :
    (updateApplicationStatus [freshApp] "u1" "zzz" "applied" 5).response =
      Except.error { message := "Application not found", statusCode := 404 } ∧
    (deleteApplication [freshApp] "u2" "a1").response =
      Except.error
        { message := "Not authorized to delete this application", statusCode := 403 } := by
  constructor
  · exact (updateStatus_delete_error_paths [freshApp] "u1" "zzz" "applied" 5).2.1
      (by decide) (by decide)
  · exact (updateStatus_delete_error_paths [freshApp] "u2" "a1" "saved" 0).2.2.2.2.1
      freshApp (by decide) (by decide)

/-- C10: the status is validated before the record is loaded: on a status
outside the enum the update endpoint answers 400, never 404 or 403, and the
store is left unchanged, whether or not the record exists or is owned by the
caller. -/
theorem invalid_status_short_circuits (store : List Application)
    (userId recordId status : String) (now : Nat) (h : status ∉ validStatuses) :
    (updateApplicationStatus store userId recordId status now).response =
      Except.error { message := "Invalid status", statusCode := 400 } ∧
    (updateApplicationStatus store userId recordId status now).store = store := by
  constructor <;> simp [updateApplicationStatus, h]

/-- C10 witness: with a store whose only record exists and is owned by another
user, an unknown status still answers 400 and leaves the store unchanged. -/
theorem invalid_status_short_circuits_witness :
    "archived" ∉ validStatuses ∧
    ((updateApplicationStatus [freshApp] "intruder" "a1" "archived" 5).response =
        Except.error { message := "Invalid status", statusCode := 400 } ∧
      (updateApplicationStatus [freshApp] "intruder" "a1" "archived" 5).store = [freshApp]) :=
  ⟨by decide, invalid_status_short_circuits [freshApp] "intruder" "a1" "archived" 5 (by decide)⟩

/-- C8: the create endpoint answers 404 when the job id resolves to no job,
400 when an application for the same user and job pair already exists, and
otherwise appends a record whose status is the supplied one, defaulting to
saved; in the failure cases the store is unchanged. -/
theorem createApplication_contract (apps : List Application) (jobs : List Job)
    (userId jid : String) (status : Option String) (newId : String) (now : Nat) :
    ((∀ j ∈ jobs, j.id ≠ jid) →
      (createApplication apps jobs userId (some jid) status newId now).response =
        Except.error { message := "Job not found", statusCode := 404 } ∧
      (createApplication apps jobs userId (some jid) status newId now).store = apps) ∧
    ((∃ j ∈ jobs, j.id = jid) → (∃ a ∈ apps, a.user = userId ∧ a.job = jid) →
      (createApplication apps jobs userId (some jid) status newId now).response =
        Except.error
          { message := "Application for this job already exists", statusCode := 400 } ∧
      (createApplication apps jobs userId (some jid) status newId now).store = apps) ∧
    ((∃ j ∈ jobs, j.id = jid) → (∀ a ∈ apps, ¬(a.user = userId ∧ a.job = jid)) →
      status.getD "saved" ∈ validStatuses →
      ∃ r, (createApplication apps jobs userId (some jid) status newId now).response =
          Except.ok r ∧
        r.status = status.getD "saved" ∧ r.user = userId ∧ r.job = jid ∧
        (createApplication apps jobs userId (some jid) status newId now).store =
          apps ++ [r]) := by
  refine ⟨?_, ?_, ?_⟩
  · intro hnone
    have hfind : jobs.find? (fun j => j.id == jid) = none := by
      rw [List.find?_eq_none]
      intro j hj
      simpa using hnone j hj
    constructor <;> simp [createApplication, hfind]
  · rintro ⟨j, hjmem, hjid⟩ ⟨a, hamem, hau, haj⟩
    have hjs : (jobs.find? (fun j => j.id == jid)).isSome := by
      rw [List.find?_isSome]
      exact ⟨j, hjmem, by simpa using hjid⟩
    have has : (apps.find? (fun a => a.user == userId && a.job == jid)).isSome := by
      rw [List.find?_isSome]
      exact ⟨a, hamem, by simp [hau, haj]⟩
    obtain ⟨j0, hj0⟩ := Option.isSome_iff_exists.mp hjs
    obtain ⟨a0, ha0⟩ := Option.isSome_iff_exists.mp has
    constructor <;> simp [createApplication, hj0, ha0]
  · rintro ⟨j, hjmem, hjid⟩ hnodup hvalid
    have hjs : (jobs.find? (fun j => j.id == jid)).isSome := by
      rw [List.find?_isSome]
      exact ⟨j, hjmem, by simpa using hjid⟩
    obtain ⟨j0, hj0⟩ := Option.isSome_iff_exists.mp hjs
    have hfind : apps.find? (fun a => a.user == userId && a.job == jid) = none := by
      rw [List.find?_eq_none]
      intro a hamem
      have := hnodup a hamem
      simp only [Bool.and_eq_true, beq_iff_eq, not_and]
      intro h1 h2
      exact this ⟨h1, h2⟩
    refine ⟨{ id := newId, user := userId, job := jid, status := status.getD "saved"
              appliedDate := none, responseDate := none, createdAt := now, updatedAt := now
              salary := none, notes := none, interviewDate := none, interviewTime := none
              interviewType := none, interviewLocation := none }, ?_⟩
    simp [createApplication, hj0, hfind, hvalid]

/-- C8 witness: creating against an existing job with an empty store succeeds
with the default saved status and appends exactly one record. -/
theorem createApplication_contract_witness :
    ∃ r, (createApplication [] [demoJob] "u1" (some "j1") none "a9" 7).response =
        Except.ok r ∧
      r.status = (none : Option String).getD "saved" ∧ r.user = "u1" ∧ r.job = "j1" ∧
      (createApplication [] [demoJob] "u1" (some "j1") none "a9" 7).store = [] ++ [r] :=
  (createApplication_contract [] [demoJob] "u1" "j1" none "a9" 7).2.2
    ⟨demoJob, by decide, by decide⟩ (by decide) (by decide)

/-- C3: evaluating the average salary metric on the two salary strings of
the specification scenario.  The digit-run pattern splits each number at its
thousands separators, so the range string parses as the numbers 100 and 0
with mean 50, the single string as 90 and 0 with mean 45, and the metric is
48 rather than the 100000 the claim states. -/
theorem averageSalary_failing_input :
    averageSalary [salaryJobOne, salaryJobTwo] = 48 ∧
    digitRuns "$100,000 - $120,000" = [100, 0, 120, 0] ∧
    salaryNumber "$100,000 - $120,000" = 50 ∧
    salaryNumber "$90,000" = 45 ∧
    (48 : Int) ≠ 100000 := by
  have hd1 : digitRuns "$100,000 - $120,000" = [100, 0, 120, 0] := by decide
  have hd2 : digitRuns "$90,000" = [90, 0] := by decide
  have h1 : salaryNumber "$100,000 - $120,000" = 50 := by
    unfold salaryNumber
    rw [hd1]
    norm_num
  have h2 : salaryNumber "$90,000" = 45 := by
    unfold salaryNumber
    rw [hd2]
    norm_num
  have hw : jobsWithSalary [salaryJobOne, salaryJobTwo] = [salaryJobOne, salaryJobTwo] := by
    decide
  have hn : salaryNumbers [salaryJobOne, salaryJobTwo] = [50, 45] := by
    unfold salaryNumbers
    rw [hw]
    simp only [List.map_cons, List.map_nil, salaryJobOne, salaryJobTwo, Option.getD_some]
    rw [h1, h2]
    norm_num [List.filter_cons]
  refine ⟨?_, hd1, h1, h2, by decide⟩
  unfold averageSalary
  rw [hw, hn]
  norm_num [jsRound]

theorem inMonthWindow_iff (now : JsDate) (i : Nat) (t : JsDate) :
    inMonthWindow now i t ↔ inMonthUpToLastMidnight (now.month - i) t := by
  unfold inMonthWindow inMonthUpToLastMidnight JsDate.le monthStart monthEnd
  dsimp only
  omega

theorem monthEntry_eq (apps : List AppRecord) (now : JsDate) (i : Nat) :
    monthEntry apps now i =
      { month := now.month - i
        applications := apps.countP (fun a =>
          decide (inMonthUpToLastMidnight (now.month - i) a.createdAt))
        interviews := apps.countP (fun a => a.status == "interviewing" &&
          decide (inMonthUpToLastMidnight (now.month - i) a.updatedAt))
        offers := apps.countP (fun a => a.status == "offer" &&
          decide (inMonthUpToLastMidnight (now.month - i) a.updatedAt)) } := by
  have hdec : ∀ t : JsDate, decide (inMonthWindow now i t) =
      decide (inMonthUpToLastMidnight (now.month - i) t) := by
    intro t
    exact decide_eq_decide.mpr (inMonthWindow_iff now i t)
  unfold monthEntry
  congr 1
  · rw [← List.countP_eq_length_filter]
    refine List.countP_congr (fun a _ => ?_)
    rw [hdec a.createdAt]
  · rw [← List.countP_eq_length_filter]
    refine List.countP_congr (fun a _ => ?_)
    rw [hdec a.updatedAt]
  · rw [← List.countP_eq_length_filter]
    refine List.countP_congr (fun a _ => ?_)
    rw [hdec a.updatedAt]

/-- C4 counterexample: a record created one millisecond past midnight on the
last day of a month is counted by the claim in that month but by the code in
no month bucket, because the upper bound of each bucket is midnight starting
the last day of the month. -/
theorem monthlyData_last_day_counterexample :
    monthlyData [lastDayRecord] analyticsNow ≠ monthlyDataClaim [lastDayRecord] analyticsNow ∧
    (monthlyDataClaim [lastDayRecord] analyticsNow).map (fun e => e.applications) =
      [0, 0, 0, 0, 1, 0] ∧
    (monthlyData [lastDayRecord] analyticsNow).map (fun e => e.applications) =
      [0, 0, 0, 0, 0, 0] := by
  refine ⟨by decide, by decide, by decide⟩

/-- C4 amended: the monthly trend lists the trailing six months oldest
first; in each bucket the application count is over records whose createdAt
lies between midnight starting the first day and midnight starting the last
day of that month inclusive, and the interview and offer counts are over
records whose current status is interviewing, respectively offer, and whose
updatedAt lies in the same window — so creation time is mixed with update
time, and the remainder of the last day of each month is excluded. -/
theorem monthlyData_amended (apps : List AppRecord) (now : JsDate) :
    monthlyData apps now = (trailingMonths now).map (fun m =>
      { month := m
        applications := apps.countP (fun a => decide (inMonthUpToLastMidnight m a.createdAt))
        interviews := apps.countP (fun a => a.status == "interviewing" &&
          decide (inMonthUpToLastMidnight m a.updatedAt))
        offers := apps.countP (fun a => a.status == "offer" &&
          decide (inMonthUpToLastMidnight m a.updatedAt)) }) := by
  have h : trailingMonths now =
      [now.month - (5 : Nat), now.month - (4 : Nat), now.month - (3 : Nat),
        now.month - (2 : Nat), now.month - (1 : Nat), now.month - (0 : Nat)] := rfl
  rw [h]
  simp only [List.map_cons, List.map_nil]
  show [monthEntry apps now 5, monthEntry apps now 4, monthEntry apps now 3,
    monthEntry apps now 2, monthEntry apps now 1, monthEntry apps now 0] = _
  rw [monthEntry_eq apps now 5, monthEntry_eq apps now 4, monthEntry_eq apps now 3,
    monthEntry_eq apps now 2, monthEntry_eq apps now 1, monthEntry_eq apps now 0]

theorem foldl_add_map (f : AppRecord → Rat) (l : List AppRecord) (t : Rat) :
    l.foldl (fun total a => total + f a) t = t + (l.map f).sum := by
  induction l generalizing t with
  | nil => simp
  | cons a rest ih => simp [ih, add_assoc]

/-- C6: the average response time aggregates over exactly the records with
both dates set — records lacking an appliedDate never contribute, even with
a responseDate, so dropping them leaves the metric unchanged — the metric is
zero when no record has both dates, and otherwise it is the mean of the
per-record delays in days. -/
theorem averageResponseTime_contract (apps : List AppRecord) :
    respondedApplications apps =
      apps.filter (fun a => a.appliedDate.isSome && a.responseDate.isSome) ∧
    averageResponseTime apps =
      averageResponseTime (apps.filter (fun a => a.appliedDate.isSome)) ∧
    ((∀ a ∈ apps, ¬(a.appliedDate.isSome = true ∧ a.responseDate.isSome = true)) →
      averageResponseTime apps = 0) ∧
    (0 < (respondedApplications apps).length →
      averageResponseTime apps * ((respondedApplications apps).length : Rat) =
        ((respondedApplications apps).map responseTimeDays).sum) := by
  have hkey : respondedApplications (apps.filter (fun a => a.appliedDate.isSome)) =
      respondedApplications apps := by
    unfold respondedApplications
    rw [List.filter_filter]
    refine List.filter_congr (fun a _ => ?_)
    cases h1 : a.appliedDate.isSome <;> cases h2 : a.responseDate.isSome <;> simp [h1, h2]
  refine ⟨?_, ?_, ?_, ?_⟩
  · unfold respondedApplications
    exact List.filter_congr (fun a _ => Bool.and_comm _ _)
  · unfold averageResponseTime
    rw [hkey]
  · intro h
    have hnil : respondedApplications apps = [] := by
      unfold respondedApplications
      rw [List.filter_eq_nil_iff]
      intro a ha
      have := h a ha
      cases h1 : a.appliedDate.isSome <;> cases h2 : a.responseDate.isSome <;>
        simp_all
    unfold averageResponseTime
    rw [hnil]
    simp
  · intro h
    unfold averageResponseTime
    rw [if_pos h, foldl_add_map, zero_add, div_mul_cancel₀]
    exact Nat.cast_ne_zero.mpr (by omega)

/-- C6 witness: a record with a responseDate but no appliedDate yields the
zero metric. -/
theorem averageResponseTime_contract_witness :
    (∀ a ∈ [noAppliedDateApp],
      ¬(a.appliedDate.isSome = true ∧ a.responseDate.isSome = true)) ∧
    averageResponseTime [noAppliedDateApp] = 0 :=
  ⟨by decide, (averageResponseTime_contract [noAppliedDateApp]).2.2.1 (by decide)⟩

theorem entryGE_trans : ∀ a b c : CompanyEntry, entryGE a b → entryGE b c → entryGE a c := by
  intro a b c hab hbc
  simp only [entryGE, decide_eq_true_eq] at *
  omega

theorem entryGE_total : ∀ a b : CompanyEntry, entryGE a b || entryGE b a := by
  intro a b
  simp only [entryGE, Bool.or_eq_true, decide_eq_true_eq]
  omega

theorem find?_cons_pos {α : Type} (p : α → Bool) (a : α) (l : List α) (h : p a = true) :
    List.find? p (a :: l) = some a :=
  List.find?_cons_of_pos l h

theorem find?_cons_neg {α : Type} (p : α → Bool) (a : α) (l : List α) (h : p a = false) :
    List.find? p (a :: l) = List.find? p l :=
  List.find?_cons_of_neg l (by simp [h])

theorem addApp_find_same (stats : List CompanyStat) (company status : String) :
    (addApp stats company status).find? (fun c => c.name == company) =
      some (bumpStat
        ((stats.find? (fun c => c.name == company)).getD
          { name := company, applications := 0, interviews := 0, offers := 0 }) status) := by
  induction stats with
  | nil =>
    simp only [addApp, List.find?_nil, Option.getD_none]
    rw [find?_cons_pos (fun c => c.name == company)
      (bumpStat { name := company, applications := 0, interviews := 0, offers := 0 } status)
      [] (by simp [bumpStat])]
  | cons c rest ih =>
    by_cases h : c.name = company
    · simp only [addApp, if_pos h]
      rw [find?_cons_pos (fun x => x.name == company) (bumpStat c status) rest
          (by simp [bumpStat, h]),
        find?_cons_pos (fun x => x.name == company) c rest (by simp [h])]
      simp
    · simp only [addApp, if_neg h]
      rw [find?_cons_neg (fun x => x.name == company) c (addApp rest company status)
          (by simp [h]),
        find?_cons_neg (fun x => x.name == company) c rest (by simp [h])]
      exact ih

theorem addApp_find_other (stats : List CompanyStat) (company status name : String)
    (h : name ≠ company) :
    (addApp stats company status).find? (fun c => c.name == name) =
      stats.find? (fun c => c.name == name) := by
  induction stats with
  | nil =>
    simp only [addApp, List.find?_nil]
    rw [find?_cons_neg (fun x => x.name == name)
      (bumpStat { name := company, applications := 0, interviews := 0, offers := 0 } status)
      [] (by simpa [bumpStat] using Ne.symm h)]
    simp
  | cons c rest ih =>
    by_cases hc : c.name = company
    · simp only [addApp, if_pos hc]
      rw [find?_cons_neg (fun x => x.name == name) (bumpStat c status) rest
          (by simpa [bumpStat, hc] using Ne.symm h),
        find?_cons_neg (fun x => x.name == name) c rest
          (by simpa [hc] using Ne.symm h)]
    · simp only [addApp, if_neg hc]
      cases hn : (c.name == name) with
      | true =>
        rw [find?_cons_pos (fun x => x.name == name) c (addApp rest company status) hn,
          find?_cons_pos (fun x => x.name == name) c rest hn]
      | false =>
        rw [find?_cons_neg (fun x => x.name == name) c (addApp rest company status) hn,
          find?_cons_neg (fun x => x.name == name) c rest hn]
        exact ih

theorem addApp_names (stats : List CompanyStat) (company status : String) :
    (addApp stats company status).map (fun c => c.name) =
      if company ∈ stats.map (fun c => c.name) then stats.map (fun c => c.name)
      else stats.map (fun c => c.name) ++ [company] := by
  induction stats with
  | nil => simp [addApp, bumpStat]
  | cons c rest ih =>
    by_cases h : c.name = company
    · simp [addApp, h, bumpStat]
    · by_cases hm : company ∈ rest.map (fun c => c.name)
      · simp [addApp, h, ih, hm, Ne.symm h]
      · simp [addApp, h, ih, hm, Ne.symm h]

theorem addApp_nodup (stats : List CompanyStat) (company status : String)
    (h : (stats.map (fun c => c.name)).Nodup) :
    ((addApp stats company status).map (fun c => c.name)).Nodup := by
  rw [addApp_names]
  by_cases hm : company ∈ stats.map (fun c => c.name)
  · simpa [hm]
  · simp [hm, List.nodup_append, h]

theorem addApp_pos (stats : List CompanyStat) (company status : String)
    (h : ∀ c ∈ stats, 0 < c.applications) :
    ∀ c ∈ addApp stats company status, 0 < c.applications := by
  induction stats with
  | nil =>
    intro c hc
    simp only [addApp, List.mem_singleton] at hc
    subst hc
    simp [bumpStat]
  | cons d rest ih =>
    intro c hc
    by_cases hd : d.name = company
    · simp only [addApp, if_pos hd, List.mem_cons] at hc
      rcases hc with rfl | hc
      · simp [bumpStat]
      · exact h c (List.mem_cons_of_mem d hc)
    · simp only [addApp, if_neg hd, List.mem_cons] at hc
      rcases hc with rfl | hc
      · exact h c (by simp)
      · exact ih (fun x hx => h x (List.mem_cons_of_mem _ hx)) c hc

theorem foldl_statsStep_pos (l : List AppRecord) :
    ∀ stats : List CompanyStat, (∀ c ∈ stats, 0 < c.applications) →
      ∀ c ∈ l.foldl statsStep stats, 0 < c.applications := by
  induction l with
  | nil =>
    intro stats h c hc
    rw [List.foldl_nil] at hc
    exact h c hc
  | cons a rest ih =>
    intro stats h c hc
    rw [List.foldl_cons] at hc
    refine ih (statsStep stats a) ?_ c hc
    unfold statsStep
    cases ha : a.job with
    | none => exact h
    | some j => exact addApp_pos stats j.company a.status h

theorem find?_name_of_mem (stats : List CompanyStat)
    (h : (stats.map (fun c => c.name)).Nodup) (c : CompanyStat) (hc : c ∈ stats) :
    stats.find? (fun d => d.name == c.name) = some c := by
  induction stats with
  | nil => cases hc
  | cons d rest ih =>
    have hh : d.name ∉ rest.map (fun x => x.name) ∧ (rest.map (fun x => x.name)).Nodup := by
      rw [List.map_cons, List.nodup_cons] at h
      exact h
    rcases List.mem_cons.mp hc with hcd | hmem
    · rw [hcd]
      exact find?_cons_pos (fun x => x.name == d.name) d rest (by simp)
    · have hd : (d.name == c.name) = false := by
        simp only [beq_eq_false_iff_ne]
        intro he
        refine hh.1 ?_
        rw [he]
        exact List.mem_map_of_mem (fun x => x.name) hmem
      rw [find?_cons_neg (fun x => x.name == c.name) d rest hd]
      exact ih hh.2 hmem

theorem foldl_statsStep_counts (l : List AppRecord) :
    ∀ stats : List CompanyStat, (stats.map (fun c => c.name)).Nodup →
      ∀ c ∈ l.foldl statsStep stats,
        c.applications = baseApplications stats c.name + appCountFor l c.name ∧
        c.interviews = baseInterviews stats c.name + statusCountFor l c.name "interviewing" ∧
        c.offers = baseOffers stats c.name + statusCountFor l c.name "offer" := by
  induction l with
  | nil =>
    intro stats hnd c hc
    rw [List.foldl_nil] at hc
    have hf := find?_name_of_mem stats hnd c hc
    unfold baseApplications baseInterviews baseOffers appCountFor statusCountFor
    rw [hf]
    simp
  | cons a rest ih =>
    intro stats hnd c hc
    rw [List.foldl_cons] at hc
    cases ha : a.job with
    | none =>
      have hstep : statsStep stats a = stats := by
        unfold statsStep
        rw [ha]
      rw [hstep] at hc
      have h := ih stats hnd c hc
      have hcn : companyName a = none := by simp [companyName, ha]
      have hc1 : appCountFor (a :: rest) c.name = appCountFor rest c.name := by
        unfold appCountFor
        rw [List.countP_cons]
        simp [hcn]
      have hc2 : statusCountFor (a :: rest) c.name "interviewing" =
          statusCountFor rest c.name "interviewing" := by
        unfold statusCountFor
        rw [List.countP_cons]
        simp [hcn]
      have hc3 : statusCountFor (a :: rest) c.name "offer" =
          statusCountFor rest c.name "offer" := by
        unfold statusCountFor
        rw [List.countP_cons]
        simp [hcn]
      exact ⟨by rw [hc1]; exact h.1, by rw [hc2]; exact h.2.1, by rw [hc3]; exact h.2.2⟩
    | some j =>
      have hstep : statsStep stats a = addApp stats j.company a.status := by
        unfold statsStep
        rw [ha]
      rw [hstep] at hc
      have hnd2 := addApp_nodup stats j.company a.status hnd
      have h := ih (addApp stats j.company a.status) hnd2 c hc
      have hcn : companyName a = some j.company := by simp [companyName, ha]
      by_cases hname : c.name = j.company
      · have hba : baseApplications (addApp stats j.company a.status) c.name =
            baseApplications stats c.name + 1 := by
          unfold baseApplications
          rw [hname, addApp_find_same]
          cases hf : stats.find? (fun d => d.name == j.company) <;> simp [bumpStat, hf]
        have hbi : baseInterviews (addApp stats j.company a.status) c.name =
            baseInterviews stats c.name + (if a.status = "interviewing" then 1 else 0) := by
          unfold baseInterviews
          rw [hname, addApp_find_same]
          cases hf : stats.find? (fun d => d.name == j.company) <;> simp [bumpStat, hf]
        have hbo : baseOffers (addApp stats j.company a.status) c.name =
            baseOffers stats c.name + (if a.status = "offer" then 1 else 0) := by
          unfold baseOffers
          rw [hname, addApp_find_same]
          cases hf : stats.find? (fun d => d.name == j.company) <;> simp [bumpStat, hf]
        have hc1 : appCountFor (a :: rest) c.name = appCountFor rest c.name + 1 := by
          unfold appCountFor
          rw [List.countP_cons]
          simp [hcn, hname]
        have hc2 : statusCountFor (a :: rest) c.name "interviewing" =
            statusCountFor rest c.name "interviewing" +
              (if a.status = "interviewing" then 1 else 0) := by
          unfold statusCountFor
          rw [List.countP_cons]
          by_cases hs : a.status = "interviewing" <;> simp [hcn, hname, hs]
        have hc3 : statusCountFor (a :: rest) c.name "offer" =
            statusCountFor rest c.name "offer" + (if a.status = "offer" then 1 else 0) := by
          unfold statusCountFor
          rw [List.countP_cons]
          by_cases hs : a.status = "offer" <;> simp [hcn, hname, hs]
        refine ⟨?_, ?_, ?_⟩
        · rw [hc1, h.1, hba]
          omega
        · rw [hc2, h.2.1, hbi]
          by_cases hs : a.status = "interviewing"
          · simp only [if_pos hs]
            omega
          · simp only [if_neg hs]
            omega
        · rw [hc3, h.2.2, hbo]
          by_cases hs : a.status = "offer"
          · simp only [if_pos hs]
            omega
          · simp only [if_neg hs]
            omega
      · have hfo := addApp_find_other stats j.company a.status c.name hname
        have hc1 : appCountFor (a :: rest) c.name = appCountFor rest c.name := by
          unfold appCountFor
          rw [List.countP_cons]
          simp [hcn, Ne.symm hname]
        have hc2 : statusCountFor (a :: rest) c.name "interviewing" =
            statusCountFor rest c.name "interviewing" := by
          unfold statusCountFor
          rw [List.countP_cons]
          simp [hcn, Ne.symm hname]
        have hc3 : statusCountFor (a :: rest) c.name "offer" =
            statusCountFor rest c.name "offer" := by
          unfold statusCountFor
          rw [List.countP_cons]
          simp [hcn, Ne.symm hname]
        unfold baseApplications baseInterviews baseOffers at h ⊢
        rw [hfo] at h
        exact ⟨by rw [hc1]; exact h.1, by rw [hc2]; exact h.2.1, by rw [hc3]; exact h.2.2⟩

theorem companyStats_counts (apps : List AppRecord) :
    ∀ c ∈ companyStats apps,
      c.applications = appCountFor apps c.name ∧
      c.interviews = statusCountFor apps c.name "interviewing" ∧
      c.offers = statusCountFor apps c.name "offer" := by
  intro c hc
  have h := foldl_statsStep_counts apps [] (by simp) c hc
  simpa [baseApplications, baseInterviews, baseOffers] using h

theorem companyStats_pos (apps : List AppRecord) :
    ∀ c ∈ companyStats apps, 0 < c.applications :=
  foldl_statsStep_pos apps [] (by simp)

theorem sortByApplications_sorted (l : List CompanyEntry) :
    (sortByApplications l).Pairwise (fun a b => b.applications ≤ a.applications) := by
  unfold sortByApplications
  have h := List.sorted_mergeSort entryGE_trans entryGE_total l
  refine h.imp ?_
  intro a b hab
  simpa [entryGE] using hab

theorem sortByApplications_filter_eq (l : List CompanyEntry) (n : Nat) :
    (sortByApplications l).filter (fun e => e.applications == n) =
      l.filter (fun e => e.applications == n) := by
  unfold sortByApplications
  have hpw : (l.filter (fun e => e.applications == n)).Pairwise
      (fun a b => entryGE a b = true) := by
    refine List.pairwise_of_forall_mem_list (fun a ha b hb => ?_)
    have ha2 := (List.mem_filter.mp ha).2
    have hb2 := (List.mem_filter.mp hb).2
    simp only [beq_iff_eq] at ha2 hb2
    simp [entryGE, ha2, hb2]
  have hsub : l.filter (fun e => e.applications == n) <+ l.mergeSort entryGE :=
    List.sublist_mergeSort entryGE_trans entryGE_total hpw (List.filter_sublist l)
  have hsub2 := hsub.filter (fun e => e.applications == n)
  rw [List.filter_eq_self.mpr (fun a ha => (List.mem_filter.mp ha).2)] at hsub2
  have hperm : (l.mergeSort entryGE).filter (fun e => e.applications == n) ~
      l.filter (fun e => e.applications == n) :=
    (List.mergeSort_perm l entryGE).filter _
  exact (hsub2.eq_of_length hperm.length_eq.symm).symm

/-- C5: the top companies table is sorted by application count descending, it
has at most five rows and exactly as many as there are distinct companies up
to five, each row carries the application, interview and offer counts of its
company over the records together with the rounded success rate, rows with
equal application counts keep the first-seen order of their companies, and
the rows kept are a maximal five of the grouped companies by application
count. -/
theorem topCompanies_contract (apps : List AppRecord) :
    (topCompanies apps).Pairwise (fun a b => b.applications ≤ a.applications) ∧
    (topCompanies apps).length = min ((companyStats apps).length) 5 ∧
    (∀ e ∈ topCompanies apps,
      e.successRate = jsRound ((e.offers : Rat) / (e.applications : Rat) * 100) ∧
      e.applications = appCountFor apps e.name ∧
      e.interviews = statusCountFor apps e.name "interviewing" ∧
      e.offers = statusCountFor apps e.name "offer") ∧
    (∀ n : Nat, (topCompanies apps).filter (fun e => e.applications == n) <+:
      (((companyStats apps).map toEntry).filter (fun e => e.applications == n))) ∧
    (∃ rest, ((companyStats apps).map toEntry).Perm (topCompanies apps ++ rest) ∧
      ∀ e ∈ topCompanies apps, ∀ g ∈ rest, g.applications ≤ e.applications) := by
  refine ⟨?_, ?_, ?_, ?_, ?_⟩
  · exact List.Pairwise.sublist (List.take_sublist 5 _)
      (sortByApplications_sorted ((companyStats apps).map toEntry))
  · unfold topCompanies sortByApplications
    rw [List.length_take, List.length_mergeSort, List.length_map]
    exact Nat.min_comm 5 _
  · intro e he
    have hmem : e ∈ (companyStats apps).map toEntry := by
      have h1 : e ∈ sortByApplications ((companyStats apps).map toEntry) :=
        (List.take_sublist 5 _).subset he
      unfold sortByApplications at h1
      exact List.mem_mergeSort.mp h1
    obtain ⟨c, hcmem, rfl⟩ := List.mem_map.mp hmem
    have hcounts := companyStats_counts apps c hcmem
    have hpos := companyStats_pos apps c hcmem
    refine ⟨?_, ?_, ?_, ?_⟩
    · simp [toEntry, hpos]
    · simpa [toEntry] using hcounts.1
    · simpa [toEntry] using hcounts.2.1
    · simpa [toEntry] using hcounts.2.2
  · intro n
    refine ⟨((sortByApplications ((companyStats apps).map toEntry)).drop 5).filter
      (fun e => e.applications == n), ?_⟩
    unfold topCompanies
    rw [← List.filter_append, List.take_append_drop, sortByApplications_filter_eq]
  · refine ⟨(sortByApplications ((companyStats apps).map toEntry)).drop 5, ?_, ?_⟩
    · have h1 : topCompanies apps ++
          (sortByApplications ((companyStats apps).map toEntry)).drop 5 =
          sortByApplications ((companyStats apps).map toEntry) :=
        List.take_append_drop 5 _
      rw [h1]
      unfold sortByApplications
      exact (List.mergeSort_perm _ entryGE).symm
    · intro e he g hg
      have h1 : topCompanies apps ++
          (sortByApplications ((companyStats apps).map toEntry)).drop 5 =
          sortByApplications ((companyStats apps).map toEntry) :=
        List.take_append_drop 5 _
      have hp := sortByApplications_sorted ((companyStats apps).map toEntry)
      rw [← h1] at hp
      exact (List.pairwise_append.mp hp).2.2 e he g hg

/-- C5 witness: on three applications to Acme with one offer and two to
Globex, the Acme row leads the table with a success rate of 33 and counts
matching the records. -/
theorem topCompanies_contract_witness :
    acmeEntry ∈ topCompanies demoApps ∧
    acmeEntry.applications = appCountFor demoApps acmeEntry.name ∧
    acmeEntry.offers = statusCountFor demoApps acmeEntry.name "offer" ∧
    acmeEntry.successRate =
      jsRound ((acmeEntry.offers : Rat) / (acmeEntry.applications : Rat) * 100) := by
  have hA : toEntry { name := "Acme", applications := 3, interviews := 0, offers := 1 } =
      acmeEntry := by
    unfold toEntry acmeEntry
    norm_num [jsRound]
  have hG : toEntry { name := "Globex", applications := 2, interviews := 0, offers := 0 } =
      globexEntry := by
    unfold toEntry globexEntry
    norm_num [jsRound]
  have hcs : companyStats demoApps =
      [{ name := "Acme", applications := 3, interviews := 0, offers := 1 },
        { name := "Globex", applications := 2, interviews := 0, offers := 0 }] := by
    decide
  have hmap : (companyStats demoApps).map toEntry = [acmeEntry, globexEntry] := by
    rw [hcs, List.map_cons, List.map_cons, List.map_nil, hA, hG]
  have hsort : sortByApplications [acmeEntry, globexEntry] = [acmeEntry, globexEntry] := by
    unfold sortByApplications
    apply List.mergeSort_of_sorted
    decide
  have htop : topCompanies demoApps = [acmeEntry, globexEntry] := by
    unfold topCompanies
    rw [hmap, hsort]
    rfl
  have hmem : acmeEntry ∈ topCompanies demoApps := by
    rw [htop]
    exact List.mem_cons_self _ _
  have h := (topCompanies_contract demoApps).2.2.1 acmeEntry hmem
  exact ⟨hmem, h.2.1, h.2.2.2, h.1⟩

end CareerPilot
